import Mathlib

set_option maxRecDepth 8000

/-!
Verification development for the Matilda menu scraper
(`scrape_matilda_to_ics.py`).  The script fetches a week menu page,
locates the embedded `__NEXT_DATA__` JSON payload, walks it for
menu-like arrays, extracts per-day meal texts, and renders an iCalendar
file.  The Python functions are shallowly embedded below: JSON-like
values become the inductive `Json`, Python dicts become insertion-ordered
association lists, `datetime.date` values become proleptic-Gregorian
ordinals (`Int`, day 1 = 0001-01-01, exactly `date.toordinal`), and the
iCalendar output is modelled as a list of structured lines together with
a text renderer.  External collaborators (HTTP fetch, BeautifulSoup
lookup, `json.loads`) are parameters at their interfaces.
-/

/-! ### Character and string helpers (Python `str` operations) -/

/-- ASCII lower-casing of one character (as done by `str.lower` and
`re.I` on the ASCII key names the script matches). -/
def lowerChar (c : Char) : Char :=
  if 65 ≤ c.toNat ∧ c.toNat ≤ 90 then Char.ofNat (c.toNat + 32) else c

/-- Python `s.lower()` on the strings the script handles. -/
def lowerStr (s : String) : String := String.mk (s.toList.map lowerChar)

/-- Substring test: does `pat` occur inside `s` (used for the
`re.search(r"(meal|menu|dish|course)", k, re.I)` key test). -/
def strContainsSub (s pat : String) : Bool :=
  s.toList.tails.any (fun t => pat.toList.isPrefixOf t)

/-- Python `str.strip()` on a character list. -/
def stripChars (cs : List Char) : List Char :=
  ((cs.dropWhile Char.isWhitespace).reverse.dropWhile Char.isWhitespace).reverse

/-- Python `str.strip()`. -/
def pyStrip (s : String) : String := String.mk (stripChars s.toList)

/-- One pass of `re.sub(r"\s+", " ", ·)`: the Boolean records whether the
previous character was part of a whitespace run already replaced. -/
def collapseWsGo : Bool → List Char → List Char
  | _, [] => []
  | inWs, c :: cs =>
    if c.isWhitespace then
      (if inWs then collapseWsGo true cs else Char.ofNat 32 :: collapseWsGo true cs)
    else c :: collapseWsGo false cs

/-- `re.sub(r"\s+", " ", t)` from the merge step of `extract_entries`. -/
def normSpace (s : String) : String := String.mk (collapseWsGo false s.toList)

/-- Decimal digits of a natural number (fuelled, fuel `n + 1` suffices). -/
def digitsAux : Nat → Nat → List Char
  | 0, _ => []
  | fuel + 1, n =>
    if n < 10 then [Char.ofNat (48 + n)]
    else digitsAux fuel (n / 10) ++ [Char.ofNat (48 + n % 10)]

/-- Decimal representation of a natural number. -/
def natToChars (n : Nat) : List Char := digitsAux (n + 1) n

/-- Python `str(n)` for an integer. -/
def intToStr (n : Int) : String :=
  if n < 0 then String.mk (Char.ofNat 45 :: natToChars n.natAbs)
  else String.mk (natToChars n.toNat)

/-- Zero-padded two-digit field (as in `strftime("%m")`/`("%d")`). -/
def pad2 (n : Nat) : List Char :=
  if n < 10 then Char.ofNat 48 :: natToChars n else natToChars n

/-- Zero-padded four-digit year field (as in `strftime("%Y")`). -/
def pad4 (n : Nat) : List Char :=
  List.replicate (4 - (natToChars n).length) (Char.ofNat 48) ++ natToChars n

/-! ### JSON-like trees (the parsed `__NEXT_DATA__` payload)

Python dicts keep insertion order and have unique keys; they are
embedded as association lists. JSON numbers relevant to this script are
embedded as integers. -/

inductive Json where
  | obj : List (String × Json) → Json
  | arr : List Json → Json
  | str : String → Json
  | num : Int → Json
  | bool : Bool → Json
  | null : Json

/-- Python truthiness (`if x:`) of a parsed JSON value. -/
def pyTruthy : Json → Bool
  | .obj kvs => !kvs.isEmpty
  | .arr xs => !xs.isEmpty
  | .str s => !(s == "")
  | .num n => !(n == 0)
  | .bool b => b
  | .null => false

/-- A single quote character (used by Python `repr`). -/
def squote : String := String.mk [Char.ofNat 39]

mutual
/-- Python `repr` of a parsed JSON value (dicts use `\x7b'k': v\x7d`,
`True`/`False`/`None` for scalars). -/
def pyRepr : Json → String
  | .obj kvs => "\x7b" ++ pyReprFields kvs ++ "\x7d"
  | .arr xs => "[" ++ pyReprElems xs ++ "]"
  | .str s => squote ++ s ++ squote
  | .num n => intToStr n
  | .bool b => if b then "True" else "False"
  | .null => "None"
termination_by structural j => j

/-- `repr` of dict items, comma-separated. -/
def pyReprFields : List (String × Json) → String
  | [] => ""
  | (k, v) :: rest =>
    squote ++ k ++ squote ++ ": " ++ pyRepr v ++
      (if rest.isEmpty then "" else ", ") ++ pyReprFields rest
termination_by structural l => l

/-- `repr` of list elements, comma-separated. -/
def pyReprElems : List Json → String
  | [] => ""
  | x :: rest => pyRepr x ++ (if rest.isEmpty then "" else ", ") ++ pyReprElems rest
termination_by structural l => l
end

/-- Python `str(x)` of a parsed JSON value: strings print bare, other
values print as their `repr`. -/
def pyStr : Json → String
  | .str s => s
  | .obj kvs => pyRepr (.obj kvs)
  | .arr xs => pyRepr (.arr xs)
  | .num n => pyRepr (.num n)
  | .bool b => pyRepr (.bool b)
  | .null => pyRepr .null

/-! ### Calendar dates (`datetime.date` as proleptic-Gregorian ordinals) -/

/-- Gregorian leap-year test. -/
def isLeap (y : Nat) : Bool := (y % 4 == 0 && y % 100 != 0) || y % 400 == 0

/-- Days in month `m` of year `y`. -/
def daysInMonth (y m : Nat) : Nat :=
  if m = 2 then (if isLeap y then 29 else 28)
  else if m = 4 ∨ m = 6 ∨ m = 9 ∨ m = 11 then 30
  else 31

/-- Days in year `y` before month `m`. -/
def daysBeforeMonth (y m : Nat) : Nat :=
  let l := if isLeap y then 1 else 0
  match m with
  | 1 => 0
  | 2 => 31
  | 3 => 59 + l
  | 4 => 90 + l
  | 5 => 120 + l
  | 6 => 151 + l
  | 7 => 181 + l
  | 8 => 212 + l
  | 9 => 243 + l
  | 10 => 273 + l
  | 11 => 304 + l
  | 12 => 334 + l
  | _ => 0

/-- Days before January 1st of year `y` (ordinal of Dec 31, `y - 1`). -/
def daysBeforeYear (y : Nat) : Nat :=
  365 * (y - 1) + (y - 1) / 4 - (y - 1) / 100 + (y - 1) / 400

/-- `date(y, m, d).toordinal()`: day 1 is 0001-01-01. -/
def toOrdinal (y m d : Nat) : Int :=
  ((daysBeforeYear y + daysBeforeMonth y m + d : Nat) : Int)

/-- Inverse of `toOrdinal` (the 400/100/4/1-year cycle arithmetic used
by `date.fromordinal`), returning `(year, month, day)`. -/
def fromOrdinal (n : Int) : Nat × Nat × Nat :=
  let n0 := n.toNat - 1
  let n400 := n0 / 146097
  let r1 := n0 % 146097
  let n100 := r1 / 36524
  let r2 := r1 % 36524
  let n4 := r2 / 1461
  let r3 := r2 % 1461
  let n1 := r3 / 365
  let r4 := r3 % 365
  let y := 400 * n400 + 100 * n100 + 4 * n4 + n1 + 1
  if n1 = 4 ∨ n100 = 4 then (y - 1, 12, 31)
  else
    let md := (List.range 12).foldl
      (fun acc i =>
        match acc with
        | (0, rem) =>
          if rem < daysInMonth y (i + 1) then (i + 1, rem + 1)
          else (0, rem - daysInMonth y (i + 1))
        | p => p)
      (0, r4)
    (y, md.1, md.2)

/-- `date.isoformat()`: `YYYY-MM-DD`. -/
def isoformat (d : Int) : String :=
  String.mk (pad4 (fromOrdinal d).1 ++ [Char.ofNat 45] ++ pad2 (fromOrdinal d).2.1 ++
    [Char.ofNat 45] ++ pad2 (fromOrdinal d).2.2)

/-- `d.strftime("%Y%m%d")` from `build_ics`. -/
def fmtdate (d : Int) : String :=
  String.mk (pad4 (fromOrdinal d).1 ++ pad2 (fromOrdinal d).2.1 ++ pad2 (fromOrdinal d).2.2)

/-- Digit value of an ASCII digit character. -/
def digVal (c : Char) : Nat := c.toNat - 48

/-- `date.fromisoformat(s[:10])` wrapped in `try/except`: parses the
first ten characters as a strict `YYYY-MM-DD` calendar date, returning
its ordinal, or `none` when the text is not a valid date. -/
def parseIso10 (s : String) : Option Int :=
  match s.toList.take 10 with
  | [y1, y2, y3, y4, h1, m1, m2, h2, d1, d2] =>
    if h1 = Char.ofNat 45 ∧ h2 = Char.ofNat 45 ∧
        [y1, y2, y3, y4, m1, m2, d1, d2].all Char.isDigit then
      let y := 1000 * digVal y1 + 100 * digVal y2 + 10 * digVal y3 + digVal y4
      let m := 10 * digVal m1 + digVal m2
      let d := 10 * digVal d1 + digVal d2
      if 1 ≤ y ∧ 1 ≤ m ∧ m ≤ 12 ∧ 1 ≤ d ∧ d ≤ daysInMonth y m then
        some (toOrdinal y m d)
      else none
    else none
  | _ => none

/-- `date.weekday()`: 0 = Monday … 6 = Sunday. -/
def weekday (d : Int) : Int := (d - 1) % 7

/-- `week_bounds_mo_su(d)`: the Monday and Sunday of the week of `d`. -/
def week_bounds_mo_su (d : Int) : Int × Int :=
  (d - weekday d, d - weekday d + 6)

/-- `target_week_bounds(today)`: Sat/Sun show next week, else this week. -/
def target_week_bounds (today : Int) : Int × Int :=
  let wd := weekday today
  if wd ≥ 5 then week_bounds_mo_su (today + (7 - wd))
  else week_bounds_mo_su today

/-! ### Menu-block finder (`walk`) -/

/-- The key test `re.search(r"(meal|menu|dish|course)", k, re.I)`. -/
def keyMatches (k : String) : Bool :=
  strContainsSub (lowerStr k) "meal" || strContainsSub (lowerStr k) "menu" ||
    strContainsSub (lowerStr k) "dish" || strContainsSub (lowerStr k) "course"

mutual
/-- `walk(obj)`: depth-first collection of every array value sitting
under a dict key matching the meal/menu/dish/course pattern; matched
arrays are collected whole and not recursed into. -/
def walk : Json → List (List Json)
  | .obj kvs => walkFields kvs
  | .arr xs => walkElems xs
  | .str _ => []
  | .num _ => []
  | .bool _ => []
  | .null => []
termination_by structural j => j

/-- The dict branch of `walk`: each matching list-valued key is itself a
result, every other value is recursed into. -/
def walkFields : List (String × Json) → List (List Json)
  | [] => []
  | (k, v) :: rest =>
    (match v with
     | .arr xs => if keyMatches k then [xs] else walkElems xs
     | w => walk w) ++ walkFields rest
termination_by structural l => l

/-- The list branch of `walk`: recurse into every element. -/
def walkElems : List Json → List (List Json)
  | [] => []
  | x :: rest => walk x ++ walkElems rest
termination_by structural l => l
end

/-! ### Entry extractor (`extract_entries`) -/

/-- The date-field priority list of `extract_entries`. -/
def dateKeys : List String := ["date", "day", "servedDate", "menuDate"]

/-- The container-field priority list of `extract_entries`. -/
def containerKeys : List String := ["meals", "dishes", "courses", "menuRows", "items"]

/-- The sub-field priority list tried on mapping elements. -/
def subFieldKeys : List String :=
  ["name", "title", "dishName", "courseName", "label", "description", "text"]

/-- The top-level text fields tried on the item itself. -/
def topKeys : List String := ["name", "title", "label", "description", "text"]

/-- The date-resolution loop: first key that is present, truthy and
whose value parses (via `parseIso10`) wins; parse failures fall through
to the next key (`try/except/pass`). -/
def itemDateGo (assoc : List (String × Json)) : List String → Option Int
  | [] => none
  | dk :: rest =>
    match assoc.lookup dk with
    | some v =>
      if pyTruthy v then
        match parseIso10 (pyStr v) with
        | some d => some d
        | none => itemDateGo assoc rest
      else itemDateGo assoc rest
    | none => itemDateGo assoc rest

/-- Date resolved for one item dict. -/
def itemDate (assoc : List (String × Json)) : Option Int :=
  itemDateGo assoc dateKeys

/-- `if s and s not in texts: texts.append(s)`. -/
def addText (texts : List String) (s : String) : List String :=
  if s ≠ "" ∧ s ∉ texts then texts ++ [s] else texts

/-- Text extraction from one element of a container array: mapping
elements have every truthy sub-field taken (stringified and stripped),
string elements are used directly (stripped), others are skipped. -/
def addElem (texts : List String) (m : Json) : List String :=
  match m with
  | .obj mas =>
    subFieldKeys.foldl
      (fun ts nk =>
        match mas.lookup nk with
        | some v => if pyTruthy v then addText ts (pyStrip (pyStr v)) else ts
        | none => ts)
      texts
  | .str s => addText texts (pyStrip s)
  | _ => texts

/-- Scan of one container field (`meals`/`dishes`/…): only list values
are scanned. -/
def addContainer (assoc : List (String × Json)) (texts : List String) (mk : String) :
    List String :=
  match assoc.lookup mk with
  | some (.arr ms) => ms.foldl addElem texts
  | _ => texts

/-- One top-level text field (`name`/`title`/…) tried on the item. -/
def addTopField (assoc : List (String × Json)) (texts : List String) (nk : String) :
    List String :=
  match assoc.lookup nk with
  | some v => if pyTruthy v then addText texts (pyStrip (pyStr v)) else texts
  | none => texts

/-- All texts collected for one item dict. -/
def itemTexts (assoc : List (String × Json)) : List String :=
  topKeys.foldl (addTopField assoc) (containerKeys.foldl (addContainer assoc) [])

/-- `(d, texts)` for one array item: non-dict items, dateless items and
textless items yield nothing (`if d and texts`). -/
def itemEntry : Json → Option (Int × List String)
  | .obj assoc =>
    (match itemDate assoc with
     | some d => if (itemTexts assoc).isEmpty then none else some (d, itemTexts assoc)
     | none => none)
  | _ => none

/-- The per-array item loop of `extract_entries`. -/
def entriesOfList (items : List Json) : List (Int × List String) :=
  items.filterMap itemEntry

/-- `merged.setdefault(d, [])` on an insertion-ordered dict. -/
def setdefault (d : Int) : List (Int × List String) → List (Int × List String)
  | [] => [(d, [])]
  | (k, ts) :: rest =>
    if k = d then (k, ts) :: rest else (k, ts) :: setdefault d rest

/-- `if t and t not in merged[d]: merged[d].append(t)` for one
(already whitespace-normalised) text. -/
def appendText (d : Int) (t : String) : List (Int × List String) → List (Int × List String)
  | [] => []
  | (k, ts) :: rest =>
    if k = d then (k, if t ≠ "" ∧ t ∉ ts then ts ++ [t] else ts) :: rest
    else (k, ts) :: appendText d t rest

/-- Merge of one `(d, lst)` entry into the per-date dict. -/
def mergeEntry (merged : List (Int × List String)) (e : Int × List String) :
    List (Int × List String) :=
  e.2.foldl (fun m t => appendText e.1 (normSpace t) m) (setdefault e.1 merged)

/-- The cross-item merge loop of `extract_entries`. -/
def mergeAll (entries : List (Int × List String)) : List (Int × List String) :=
  entries.foldl mergeEntry []

/-- Insertion step of `sorted(merged.items(), key=date)`. -/
def insertByDate (p : Int × List String) : List (Int × List String) → List (Int × List String)
  | [] => [p]
  | q :: rest => if p.1 ≤ q.1 then p :: q :: rest else q :: insertByDate p rest

/-- `sorted(merged.items(), key=lambda x: x[0])` (keys are unique). -/
def sortByDate (l : List (Int × List String)) : List (Int × List String) :=
  l.foldr insertByDate []

/-- `extract_entries` applied to an explicit list of candidate arrays. -/
def extract_from (lists : List (List Json)) : List (Int × List String) :=
  sortByDate (mergeAll ((lists.map entriesOfList).flatten))

/-- `extract_entries(next_data)`: the DailyMenu, a date-sorted list of
`(date, meals)` pairs. -/
def extract_entries (next_data : Json) : List (Int × List String) :=
  extract_from (walk next_data)

/-! ### Name guesser (`guess_name`) -/

/-- A double quote character. -/
def dquote : String := String.mk [Char.ofNat 34]

/-- JSON string escaping used by `json.dumps`. -/
def escJsonChar (c : Char) : List Char :=
  if c = Char.ofNat 34 then [Char.ofNat 92, Char.ofNat 34]
  else if c = Char.ofNat 92 then [Char.ofNat 92, Char.ofNat 92]
  else if c = Char.ofNat 10 then [Char.ofNat 92, Char.ofNat 110]
  else if c = Char.ofNat 13 then [Char.ofNat 92, Char.ofNat 114]
  else if c = Char.ofNat 9 then [Char.ofNat 92, Char.ofNat 116]
  else [c]

/-- `json.dumps` escaping of a string body. -/
def escJsonStr (s : String) : String := String.mk ((s.toList.map escJsonChar).flatten)

mutual
/-- `json.dumps(tree, ensure_ascii=False)`. -/
def jsonDumps : Json → String
  | .obj kvs => "\x7b" ++ dumpsFields kvs ++ "\x7d"
  | .arr xs => "[" ++ dumpsElems xs ++ "]"
  | .str s => dquote ++ escJsonStr s ++ dquote
  | .num n => intToStr n
  | .bool b => if b then "true" else "false"
  | .null => "null"
termination_by structural j => j

/-- `json.dumps` of dict items. -/
def dumpsFields : List (String × Json) → String
  | [] => ""
  | (k, v) :: rest =>
    dquote ++ escJsonStr k ++ dquote ++ ": " ++ jsonDumps v ++
      (if rest.isEmpty then "" else ", ") ++ dumpsFields rest
termination_by structural l => l

/-- `json.dumps` of list elements. -/
def dumpsElems : List Json → String
  | [] => ""
  | x :: rest => jsonDumps x ++ (if rest.isEmpty then "" else ", ") ++ dumpsElems rest
termination_by structural l => l
end

/-- The alternation `(school|kitchen|distributor|title|name)`. -/
def nameKeys : List String := ["school", "kitchen", "distributor", "title", "name"]

/-- Try the keyword alternation at the head of `cs`, returning the rest. -/
def tryKeys : List String → List Char → Option (List Char)
  | [], _ => none
  | k :: rest, cs =>
    if k.toList.isPrefixOf cs then some (cs.drop k.toList.length) else tryKeys rest cs

/-- Attempt the pattern
`"(school|kitchen|distributor|title|name)"\s*:\s*"([^"]\x7b3,\x7d)"`
anchored at the current position; returns the captured group two. -/
def matchNameAt (cs : List Char) : Option String :=
  match cs with
  | [] => none
  | c :: rest =>
    if c = Char.ofNat 34 then
      match tryKeys nameKeys rest with
      | some rem1 =>
        match rem1 with
        | [] => none
        | q :: rem2 =>
          if q = Char.ofNat 34 then
            match rem2.dropWhile Char.isWhitespace with
            | [] => none
            | colon :: rem4 =>
              if colon = Char.ofNat 58 then
                match rem4.dropWhile Char.isWhitespace with
                | [] => none
                | q2 :: rem6 =>
                  if q2 = Char.ofNat 34 then
                    let run := rem6.takeWhile (fun c2 => c2 ≠ Char.ofNat 34)
                    if 3 ≤ run.length ∧ run.length < rem6.length then
                      some (String.mk run)
                    else none
                  else none
              else none
          else none
      | none => none
    else none

/-- `re.search` of the name pattern: leftmost match wins. -/
def searchNameIn : List Char → Option String
  | [] => none
  | c :: rest =>
    match matchNameAt (c :: rest) with
    | some s => some s
    | none => searchNameIn rest

/-- The fallback branch of `guess_name`: serialize the payload, search
the name pattern, else the fixed generic title. -/
def payload_guess (next_data : Json) : String :=
  match searchNameIn (jsonDumps next_data).toList with
  | some s => s
  | none => "Skolmatsedel"

/-- `guess_name(next_data, default_name)`: a truthy (non-empty) default
name is returned verbatim, otherwise the payload is consulted. -/
def guess_name (next_data : Json) (default_name : String) : String :=
  if default_name ≠ "" then default_name else payload_guess next_data

/-! ### Week-query injection (`add_week_query_to_week_url`)

`urlparse` splits a URL into six components; the query component is
embedded here in parsed form, as the ordered list of `(name, value)`
pairs `parse_qsl` would produce. -/

structure UrlParts where
  scheme : String
  netloc : String
  path : String
  params : String
  query : List (String × String)
  fragment : String

/-- `parse_qs` grouping step: append `v` to the group of `k`, creating
the group at the end on first occurrence (dict insertion order). -/
def groupInsert (k v : String) : List (String × List String) → List (String × List String)
  | [] => [(k, [v])]
  | (k2, vs) :: rest =>
    if k2 = k then (k2, vs ++ [v]) :: rest else (k2, vs) :: groupInsert k v rest

/-- `parse_qs` on pre-split pairs: blank values are dropped
(`keep_blank_values=False`), remaining values grouped by name in
first-occurrence order. -/
def parse_qs (pairs : List (String × String)) : List (String × List String) :=
  pairs.foldl (fun acc kv => if kv.2 = "" then acc else groupInsert kv.1 kv.2 acc) []

/-- Python dict assignment `q[k] = vs`: replace in place, else append. -/
def dictSet (k : String) (vs : List String) :
    List (String × List String) → List (String × List String)
  | [] => [(k, vs)]
  | (k2, vs2) :: rest =>
    if k2 = k then (k2, vs) :: rest else (k2, vs2) :: dictSet k vs rest

/-- `add_week_query_to_week_url(url, start, end)`: set
`startDate`/`endDate` to the ISO dates and re-encode `\x7bk: v[0]\x7d`
(only the first value of every group survives). -/
def add_week_query_to_week_url (u : UrlParts) (start finish : Int) : UrlParts :=
  let q2 := dictSet "endDate" [isoformat finish]
    (dictSet "startDate" [isoformat start] (parse_qs u.query))
  { u with query := q2.map (fun p => (p.1, p.2.headD "")) }

/-! ### Calendar renderer (`build_ics`)

The emitted text is modelled as structured lines plus a line renderer;
`build_ics` proper is the newline join of the rendered lines.  The
`DTSTAMP` value (`datetime.utcnow()`) and the `hash` used inside `UID`
are impure inputs of the script and appear as parameters. -/

inductive IcsLine where
  | beginCal
  | prodid
  | version2
  | calscale
  | calname (s : String)
  | tzline
  | beginEvent
  | dtstampL (s : String)
  | uidL (s : String)
  | dtstartL (d : Int)
  | dtendL (d : Int)
  | summaryL
  | descriptionL (s : String)
  | endEvent
  | endCal
deriving DecidableEq

/-- `TZ = "Europe/Stockholm"`. -/
def TZ : String := "Europe/Stockholm"

/-- The fixed calendar header built before the event loop. -/
def hdrLines (cal_name : String) : List IcsLine :=
  [.beginCal, .prodid, .version2, .calscale, .calname cal_name, .tzline]

/-- The per-day cleaning loop of `build_ics`: strip, drop empties, keep
the first occurrence of each case-insensitive key. -/
def cleanGo : List String → List String → List String → List String
  | [], _, clean => clean
  | m :: rest, seen, clean =>
    if pyStrip m = "" then cleanGo rest seen clean
    else if lowerStr (pyStrip m) ∈ seen then cleanGo rest seen clean
    else cleanGo rest (seen ++ [lowerStr (pyStrip m)]) (clean ++ [pyStrip m])

/-- The cleaned meal list for one day. -/
def cleanMeals (meals : List String) : List String := cleanGo meals [] []

/-- The literal two-character sequence backslash–n. -/
def bslashN : String := String.mk [Char.ofNat 92, Char.ofNat 110]

/-- `s.replace("\n", "\\n")`. -/
def replaceNl (s : String) : String :=
  String.mk ((s.toList.map
    (fun c => if c = Char.ofNat 10 then [Char.ofNat 92, Char.ofNat 110] else [c])).flatten)

/-- `"\\n".join(clean).replace("\n", "\\n")`: the DESCRIPTION body. -/
def descText (clean : List String) : String :=
  replaceNl (String.intercalate bslashN clean)

/-- The eight lines of one `VEVENT` block. -/
def eventBlock (now : String) (hashF : String → Nat) (d : Int) (clean : List String) :
    List IcsLine :=
  [.beginEvent, .dtstampL now,
   .uidL (isoformat d ++ "-" ++ intToStr (hashF (descText clean)) ++ "@matilda2ics"),
   .dtstartL d, .dtendL (d + 1), .summaryL, .descriptionL (descText clean), .endEvent]

/-- `build_ics(cal_name, daily_meals)` as structured lines: header, one
event block per day whose cleaned list is non-empty, footer. -/
def build_ics_lines (cal_name now : String) (hashF : String → Nat)
    (daily_meals : List (Int × List String)) : List IcsLine :=
  hdrLines cal_name ++
    ((daily_meals.map (fun p =>
        if (cleanMeals p.2).isEmpty then []
        else eventBlock now hashF p.1 (cleanMeals p.2))).flatten) ++
    [.endCal]

/-- Rendering of one structured line to its exact output text. -/
def renderLine : IcsLine → String
  | .beginCal => "BEGIN:VCALENDAR"
  | .prodid => "PRODID:-//matilda2ics//github.com//"
  | .version2 => "VERSION:2.0"
  | .calscale => "CALSCALE:GREGORIAN"
  | .calname s => "X-WR-CALNAME:" ++ s
  | .tzline => "X-WR-TIMEZONE:" ++ TZ
  | .beginEvent => "BEGIN:VEVENT"
  | .dtstampL s => "DTSTAMP:" ++ s
  | .uidL s => "UID:" ++ s
  | .dtstartL d => "DTSTART;VALUE=DATE:" ++ fmtdate d
  | .dtendL d => "DTEND;VALUE=DATE:" ++ fmtdate d
  | .summaryL => "SUMMARY:Matsedel"
  | .descriptionL s => "DESCRIPTION:" ++ s
  | .endEvent => "END:VEVENT"
  | .endCal => "END:VCALENDAR"

/-- `build_ics` proper: `"\n".join(lines)`. -/
def build_ics (cal_name now : String) (hashF : String → Nat)
    (daily_meals : List (Int × List String)) : String :=
  String.intercalate "\n" ((build_ics_lines cal_name now hashF daily_meals).map renderLine)

/-! ### Structured-data locator (`find_next_data`) and the post-fetch
part of `main`

BeautifulSoup and `json.loads` are external collaborators: the page
type, the `__NEXT_DATA__` script-content lookup and the JSON parser
are parameters.  `jsonLoads s = none` models `json.loads` raising. -/

/-- Exit code for a missing source URL (`sys.exit(2)`). -/
def EXIT_NO_URL : Nat := 2

/-- Exit code for a fetch failure (`sys.exit(3)`). -/
def EXIT_FETCH_FAIL : Nat := 3

/-- Exit code for a missing/unusable embedded payload (`sys.exit(4)`). -/
def EXIT_NO_DATA : Nat := 4

/-- `find_next_data(html)`: the script-tag content, if any and
non-empty, parsed by `json.loads`, with parse errors turned into
`none`. -/
def find_next_data {Html : Type} (findScript : Html → Option String)
    (jsonLoads : String → Option Json) (html : Html) : Option Json :=
  match findScript html with
  | none => none
  | some s => if s = "" then none else jsonLoads s

/-- `main` from the point the page text is available: locate the
payload (truthiness-checked as in `if not data:`), extract, filter to
the requested week, resolve the calendar name, render.  The result is
the exit code and the file content written, if any. -/
def main_after_fetch {Html : Type} (findScript : Html → Option String)
    (jsonLoads : String → Option Json) (cal_name_env now : String)
    (hashF : String → Nat) (start finish : Int) (html : Html) : Nat × Option String :=
  match find_next_data findScript jsonLoads html with
  | none => (EXIT_NO_DATA, none)
  | some data =>
    if pyTruthy data then
      (0, some (build_ics (guess_name data (pyStrip cal_name_env)) now hashF
        ((extract_entries data).filter
          (fun p => decide (start ≤ p.1) && decide (p.1 ≤ finish)))))
    else (EXIT_NO_DATA, none)

/-! ### Concrete payloads used in the claim instances -/

/-- The end-to-end example payload
`\x7b"menu": [\x7b"date": "2024-06-10", "meals":
[\x7b"name": "Fish soup"\x7d, \x7b"name": "fish soup"\x7d]\x7d]\x7d`. -/
def fishPayload : Json :=
  .obj [("menu", .arr [.obj [("date", .str "2024-06-10"),
    ("meals", .arr [.obj [("name", .str "Fish soup")], .obj [("name", .str "fish soup")]])]])]

/-- A payload whose single meal element carries both a `name` and a
`title` sub-field. -/
def abPayload : Json :=
  .obj [("menu", .arr [.obj [("date", .str "2024-06-10"),
    ("meals", .arr [.obj [("name", .str "A"), ("title", .str "B")]])]])]

/-- A URL whose query repeats the parameter `a` and carries a blank `b`. -/
def repeatedParamUrl : UrlParts :=
  ⟨"https", "menu.example", "/meals/week", "", [("a", "1"), ("a", "2"), ("b", "")], "frag"⟩

/-! ### Spec-side characterizations and output observers -/

/-- Spec-side characterization of the Menu-Block Finder result
(spec 4.2): an array is collected when the depth-first traversal
reaches it as the value of a mapping key matching the
meal/menu/dish/course pattern; traversal recurses into values of
non-matching keys and into every element of arrays reached directly,
but never into a matched array. -/
inductive Collects : Json → List Json → Prop where
  | matched (kvs : List (String × Json)) (k : String) (xs : List Json) :
      (k, Json.arr xs) ∈ kvs → keyMatches k = true → Collects (.obj kvs) xs
  | objRec (kvs : List (String × Json)) (k : String) (v : Json) (a : List Json) :
      (k, v) ∈ kvs → (∀ xs, v = Json.arr xs → keyMatches k = false) →
      Collects v a → Collects (.obj kvs) a
  | arrRec (xs : List Json) (x : Json) (a : List Json) :
      x ∈ xs → Collects x a → Collects (.arr xs) a

/-- Observer: is this line `BEGIN:VEVENT`? -/
def isBeginEvent : IcsLine → Bool
  | .beginEvent => true
  | _ => false

/-- Observer: is this line `END:VEVENT`? -/
def isEndEvent : IcsLine → Bool
  | .endEvent => true
  | _ => false

/-- Observer: the `DTSTART` dates of an output, in order. -/
def dtstartsOf (lines : List IcsLine) : List Int :=
  lines.filterMap (fun l => match l with | .dtstartL d => some d | _ => none)

/-- Observer: the `DTEND` dates of an output, in order. -/
def dtendsOf (lines : List IcsLine) : List Int :=
  lines.filterMap (fun l => match l with | .dtendL d => some d | _ => none)

/-- The first non-blank value carried by parameter `k` in a query. -/
def firstNonBlankValue (k : String) (pairs : List (String × String)) : Option String :=
  (pairs.filter (fun p => !(p.2 == ""))).lookup k

/-- The non-blank values carried by parameter `k` in a query, in
order (what `parse_qs` gathers into the group of `k`). -/
def valsOf (k : String) (pairs : List (String × String)) : List String :=
  (pairs.filter (fun p => p.1 == k && !(p.2 == ""))).map Prod.snd

/-! ### Theorems -/

/-- C4: `target_week_bounds` returns the Monday–Sunday span of the
following week when today is Saturday or Sunday (weekday ≥ 5), and of
the current week otherwise; the span always starts on a Monday and is
seven days long; and the two concrete instances 2024-06-08 (Saturday)
and 2024-06-11 (Tuesday) both give 2024-06-10 … 2024-06-16. -/
theorem target_week_bounds_correct (t : Int) :
    (target_week_bounds t =
      if weekday t ≥ 5 then (t - weekday t + 7, t - weekday t + 13)
      else (t - weekday t, t - weekday t + 6)) ∧
    weekday (target_week_bounds t).1 = 0 ∧
    (target_week_bounds t).2 = (target_week_bounds t).1 + 6 ∧
    target_week_bounds (toOrdinal 2024 6 8) = (toOrdinal 2024 6 10, toOrdinal 2024 6 16) ∧
    target_week_bounds (toOrdinal 2024 6 11) = (toOrdinal 2024 6 10, toOrdinal 2024 6 16) := by
  refine ⟨?_, ?_, ?_, by decide, by decide⟩
  · by_cases h : (5 : Int) ≤ (t - 1) % 7 <;>
      simp [target_week_bounds, week_bounds_mo_su, weekday, ge_iff_le, h, Prod.ext_iff] <;>
      omega
  · by_cases h : (5 : Int) ≤ (t - 1) % 7 <;>
      simp [target_week_bounds, week_bounds_mo_su, weekday, ge_iff_le, h] <;>
      omega
  · by_cases h : (5 : Int) ≤ (t - 1) % 7 <;>
      simp [target_week_bounds, week_bounds_mo_su, weekday, ge_iff_le, h]

/-- C6: `find_next_data` yields a parsed tree exactly when the page has
the `__NEXT_DATA__` script content and that content is valid JSON
(given that the empty string is not valid JSON), and when it yields
nothing the post-fetch part of `main` exits with the distinct
missing-data exit code and writes no output file. -/
theorem find_next_data_contract {Html : Type} (findScript : Html → Option String)
    (jsonLoads : String → Option Json) (cal_name_env now : String)
    (hashF : String → Nat) (start finish : Int) (html : Html) :
    (find_next_data findScript jsonLoads html = none →
      main_after_fetch findScript jsonLoads cal_name_env now hashF start finish html =
        (EXIT_NO_DATA, none)) ∧
    (jsonLoads "" = none →
      ∀ t, find_next_data findScript jsonLoads html = some t ↔
        ∃ s, findScript html = some s ∧ jsonLoads s = some t) ∧
    EXIT_NO_DATA ≠ EXIT_NO_URL ∧ EXIT_NO_DATA ≠ EXIT_FETCH_FAIL := by
  refine ⟨?_, ?_, by decide, by decide⟩
  · intro h
    simp [main_after_fetch, h]
  · intro hEmpty t
    unfold find_next_data
    cases hs : findScript html with
    | none => simp
    | some s =>
      by_cases he : s = ""
      · simp [he, hEmpty]
      · simp [he]

/-- Witness for C6 at a concrete instantiation: the page type is
`Option String`, the script lookup is the identity, the JSON parser
accepts only `"1"`. -/
theorem find_next_data_contract_witness :
    main_after_fetch (fun h : Option String => h)
      (fun s => if s = "1" then some (.num 1) else none) "" "" (fun _ => 0) 0 0 none =
      (EXIT_NO_DATA, none) ∧
    (find_next_data (fun h : Option String => h)
      (fun s => if s = "1" then some (.num 1) else none) (some "1") = some (.num 1) ↔
      ∃ s, some "1" = some s ∧ (if s = "1" then some (Json.num 1) else none) = some (.num 1)) := by
  constructor
  · exact (find_next_data_contract (fun h : Option String => h)
      (fun s => if s = "1" then some (.num 1) else none) "" "" (fun _ => 0) 0 0 none).1
      (by simp [find_next_data])
  · exact (find_next_data_contract (fun h : Option String => h)
      (fun s => if s = "1" then some (.num 1) else none) "" "" (fun _ => 0) 0 0
      (some "1")).2.1 (by simp) (.num 1)

/-- C10: a non-empty configured title is returned verbatim and without
consulting the payload (the result is payload-independent); a
whitespace-only raw title, as stripped by `main`, falls back to the
payload pattern search, and when the pattern finds nothing the fixed
generic title is used. -/
theorem guess_name_default (j j2 : Json) (t raw : String) :
    (t ≠ "" → guess_name j t = t) ∧
    (t ≠ "" → guess_name j t = guess_name j2 t) ∧
    (pyStrip raw = "" → guess_name j (pyStrip raw) = payload_guess j) ∧
    (searchNameIn (jsonDumps j).toList = none → guess_name j "" = "Skolmatsedel") := by
  refine ⟨?_, ?_, ?_, ?_⟩
  · intro h
    simp [guess_name, h]
  · intro h
    simp [guess_name, h]
  · intro h
    rw [h]
    simp [guess_name]
  · intro h
    have h2 : searchNameIn (jsonDumps j).data = none := h
    simp [guess_name, payload_guess, h2]

/-- Witness for C10: a concrete payload with a matching `"name"` field,
the configured titles `"My School"` and `" "` (whitespace-only). -/
theorem guess_name_default_witness :
    guess_name (.obj [("name", .str "Gustavlund")]) "My School" = "My School" ∧
    guess_name (.obj [("name", .str "Gustavlund")]) (pyStrip " ") =
      payload_guess (.obj [("name", .str "Gustavlund")]) ∧
    guess_name (.obj [("x", .num 1)]) "" = "Skolmatsedel" := by
  refine ⟨?_, ?_, ?_⟩
  · exact (guess_name_default (.obj [("name", .str "Gustavlund")]) .null "My School" " ").1
      (by decide)
  · exact (guess_name_default (.obj [("name", .str "Gustavlund")]) .null "My School" " ").2.2.1
      (by decide)
  · exact (guess_name_default (.obj [("x", .num 1)]) .null "My School" " ").2.2.2 (by decide)

/-- If every date field of an item fails to parse, the date loop
resolves nothing. -/
theorem itemDateGo_none (assoc : List (String × Json)) (ks : List String)
    (h : ∀ dk ∈ ks, ∀ v, assoc.lookup dk = some v → parseIso10 (pyStr v) = none) :
    itemDateGo assoc ks = none := by
  induction ks with
  | nil => rfl
  | cons dk rest ih =>
    have hrest : ∀ dk2 ∈ rest, ∀ v, assoc.lookup dk2 = some v → parseIso10 (pyStr v) = none :=
      fun dk2 hdk2 v hv => h dk2 (List.mem_cons_of_mem dk hdk2) v hv
    unfold itemDateGo
    cases hl : assoc.lookup dk with
    | none => exact ih hrest
    | some v =>
      dsimp only
      by_cases ht : pyTruthy v
      · rw [if_pos ht, h dk (List.mem_cons_self dk rest) v hl]
        exact ih hrest
      · rw [if_neg ht]
        exact ih hrest

/-- An item without a resolvable date yields no entry. -/
theorem itemEntry_none_of_no_date (assoc : List (String × Json))
    (h : ∀ dk ∈ dateKeys, ∀ v, assoc.lookup dk = some v → parseIso10 (pyStr v) = none) :
    itemEntry (.obj assoc) = none := by
  have hd : itemDate assoc = none := itemDateGo_none assoc dateKeys h
  simp [itemEntry, hd]

/-- C9: an item none of whose `date`/`day`/`servedDate`/`menuDate`
fields carries a value whose leading ten characters parse as an ISO
date contributes to no DayEntry: the extraction result over the
candidate arrays is unchanged when the item is removed (and in
particular the extraction completes normally on such items). -/
theorem extract_dateless_item_dropped (pre post : List (List Json)) (l1 l2 : List Json)
    (assoc : List (String × Json))
    (h : ∀ dk ∈ dateKeys, ∀ v, assoc.lookup dk = some v → parseIso10 (pyStr v) = none) :
    extract_from (pre ++ (l1 ++ Json.obj assoc :: l2) :: post) =
      extract_from (pre ++ (l1 ++ l2) :: post) := by
  unfold extract_from
  have he : entriesOfList (l1 ++ Json.obj assoc :: l2) = entriesOfList (l1 ++ l2) := by
    unfold entriesOfList
    rw [List.filterMap_append, List.filterMap_append, List.filterMap_cons,
      itemEntry_none_of_no_date assoc h]
  rw [List.map_append, List.map_append, List.map_cons, List.map_cons, he]

/-- Witness for C9: an item whose `date` value does not parse is
dropped while its neighbours survive. -/
theorem extract_dateless_item_dropped_witness :
    extract_from [[Json.obj [("date", .str "not-a-date"), ("meals", .arr [.str "X"])],
        Json.obj [("date", .str "2024-06-10"), ("meals", .arr [.str "Y"])]]] =
      extract_from [[Json.obj [("date", .str "2024-06-10"), ("meals", .arr [.str "Y"])]]] := by
  have h := extract_dateless_item_dropped [] [] []
    [Json.obj [("date", .str "2024-06-10"), ("meals", .arr [.str "Y"])]]
    [("date", .str "not-a-date"), ("meals", .arr [.str "X"])]
    (by
      intro dk hdk v hv
      fin_cases hdk <;> simp [List.lookup] at hv <;> subst hv <;> decide)
  simpa using h

/-- Membership through the insertion step of the final sort. -/
theorem mem_insertByDate (p q : Int × List String) (l : List (Int × List String)) :
    p ∈ insertByDate q l ↔ p = q ∨ p ∈ l := by
  induction l with
  | nil => simp [insertByDate]
  | cons r rest ih =>
    unfold insertByDate
    by_cases h : q.1 ≤ r.1
    · simp [h]
    · simp [h, ih]
      tauto

/-- Sorting by date neither adds nor removes entries. -/
theorem mem_sortByDate (p : Int × List String) (l : List (Int × List String)) :
    p ∈ sortByDate l ↔ p ∈ l := by
  unfold sortByDate
  induction l with
  | nil => simp
  | cons r rest ih => simp [mem_insertByDate, ih]

/-- `appendText` keeps every per-date list duplicate-free. -/
theorem appendText_nodup (d : Int) (t : String) (l : List (Int × List String))
    (h : ∀ q ∈ l, q.2.Nodup) : ∀ q ∈ appendText d t l, q.2.Nodup := by
  induction l with
  | nil => simp [appendText]
  | cons r rest ih =>
    intro q hq
    unfold appendText at hq
    by_cases hk : r.1 = d
    · obtain ⟨k, ts⟩ := r
      simp only at hk
      simp only [hk, if_pos rfl] at hq
      rcases List.mem_cons.mp hq with hq1 | hq2
      · subst hq1
        by_cases hc : t ≠ "" ∧ t ∉ ts
      
        · simp only [if_pos hc]
          have hts : ts.Nodup := h (d, ts) (by simp [hk])
          simp [List.nodup_append, hts, hc.2]
        · simp only [if_neg hc]
          exact h (d, ts) (by simp [hk])
      · exact h q (List.mem_cons_of_mem _ hq2)
    · obtain ⟨k, ts⟩ := r
      simp only at hk
      simp only [if_neg hk] at hq
      rcases List.mem_cons.mp hq with hq1 | hq2
      · subst hq1
        exact h (k, ts) (List.mem_cons_self _ _)
      · exact ih (fun q2 hq2b => h q2 (List.mem_cons_of_mem _ hq2b)) q hq2

/-- `setdefault` keeps every per-date list duplicate-free. -/
theorem setdefault_nodup (d : Int) (l : List (Int × List String))
    (h : ∀ q ∈ l, q.2.Nodup) : ∀ q ∈ setdefault d l, q.2.Nodup := by
  induction l with
  | nil =>
    intro q hq
    unfold setdefault at hq
    simp at hq
    subst hq
    simp
  | cons r rest ih =>
    intro q hq
    unfold setdefault at hq
    by_cases hk : r.1 = d
    · obtain ⟨k, ts⟩ := r
      simp only at hk
      simp only [if_pos hk] at hq
      exact h q hq
    · obtain ⟨k, ts⟩ := r
      simp only at hk
      simp only [if_neg hk] at hq
      rcases List.mem_cons.mp hq with hq1 | hq2
      · subst hq1
        exact h (k, ts) (List.mem_cons_self _ _)
      · exact ih (fun q2 hq2b => h q2 (List.mem_cons_of_mem _ hq2b)) q hq2

/-- The text fold of one merged entry keeps lists duplicate-free. -/
theorem mergeEntry_nodup (acc : List (Int × List String)) (e : Int × List String)
    (h : ∀ q ∈ acc, q.2.Nodup) : ∀ q ∈ mergeEntry acc e, q.2.Nodup := by
  unfold mergeEntry
  have base := setdefault_nodup e.1 acc h
  generalize setdefault e.1 acc = m0 at base
  induction e.2 generalizing m0 with
  | nil => exact base
  | cons t rest ih =>
    simp only [List.foldl_cons]
    exact ih (appendText e.1 (normSpace t) m0) (appendText_nodup e.1 (normSpace t) m0 base)

/-- Every per-date list produced by the cross-item merge is
duplicate-free. -/
theorem mergeAll_nodup (entries : List (Int × List String)) :
    ∀ q ∈ mergeAll entries, q.2.Nodup := by
  unfold mergeAll
  have h0 : ∀ q ∈ ([] : List (Int × List String)), q.2.Nodup := by simp
  generalize ([] : List (Int × List String)) = acc at h0
  induction entries generalizing acc with
  | nil => exact h0
  | cons e rest ih =>
    simp only [List.foldl_cons]
    exact ih (mergeEntry acc e) (mergeEntry_nodup acc e h0)

/-- Counterexample to C1 as stated: on the end-to-end payload the
DailyMenu's single DayEntry keeps both case variants, so its meal list
is not `["Fish soup"]`. -/
theorem extract_entries_ci_dedup_cex :
    extract_entries fishPayload ≠ [(toOrdinal 2024 6 10, ["Fish soup"])] := by
  decide

/-- C1 (amended): the cross-item merge deduplicates by exact string
equality, not case-insensitively: every DayEntry meal list is exactly
duplicate-free (first occurrence kept, in first-seen order), and the
end-to-end payload yields exactly one DayEntry for 2024-06-10 whose
meals are `["Fish soup", "fish soup"]` — both case variants survive
(the case-insensitive pass happens later, in `build_ics`). -/
theorem extract_entries_dedup_exact :
    (∀ (j : Json) (p : Int × List String), p ∈ extract_entries j → p.2.Nodup) ∧
    extract_entries fishPayload = [(toOrdinal 2024 6 10, ["Fish soup", "fish soup"])] := by
  constructor
  · intro j p hp
    unfold extract_entries extract_from at hp
    rw [mem_sortByDate] at hp
    exact mergeAll_nodup _ p hp
  · decide

/-- Witness for C1's amended theorem at the end-to-end payload. -/
theorem extract_entries_dedup_exact_witness :
    (toOrdinal 2024 6 10, ["Fish soup", "fish soup"]) ∈ extract_entries fishPayload ∧
    (["Fish soup", "fish soup"] : List String).Nodup := by
  constructor
  · decide
  · exact extract_entries_dedup_exact.1 fishPayload
      (toOrdinal 2024 6 10, ["Fish soup", "fish soup"]) (by decide)

/-- `addText` never removes an element. -/
theorem addText_mono (ts : List String) (s x : String) (h : x ∈ ts) : x ∈ addText ts s := by
  unfold addText
  split
  · exact List.mem_append_left _ h
  · exact h

/-- A non-empty text is present after `addText` with itself. -/
theorem addText_self (ts : List String) (s : String) (hs : s ≠ "") : s ∈ addText ts s := by
  unfold addText
  split
  · simp
  · rename_i hneg
    rcases not_and_or.mp hneg with h1 | h2
    · exact absurd hs (by simpa using h1)
    · simpa using h2

/-- Folding further key probes never removes a collected text. -/
theorem foldl_mem_mono (f : List String → String → List String)
    (hf : ∀ ts k x, x ∈ ts → x ∈ f ts k) (keys : List String) :
    ∀ ts x, x ∈ ts → x ∈ keys.foldl f ts := by
  induction keys with
  | nil => intro ts x h; simpa using h
  | cons k rest ih =>
    intro ts x h
    simp only [List.foldl_cons]
    exact ih (f ts k) x (hf ts k x h)

/-- The sub-field probe of `addElem` never removes a collected text. -/
theorem subProbe_mono (mas : List (String × Json)) (ts : List String) (k x : String)
    (h : x ∈ ts) :
    x ∈ (match mas.lookup k with
      | some v => if pyTruthy v then addText ts (pyStrip (pyStr v)) else ts
      | none => ts) := by
  cases mas.lookup k with
  | none => exact h
  | some v =>
    dsimp only
    split
    · exact addText_mono ts _ x h
    · exact h

/-- Every listed key whose probe succeeds contributes its text to the
sub-field fold, with or without keys before and after it. -/
theorem mem_foldl_subProbe (mas : List (String × Json)) (keys : List String)
    (nk : String) (v : Json) (hnk : nk ∈ keys) (hl : mas.lookup nk = some v)
    (ht : pyTruthy v = true) (hs : pyStrip (pyStr v) ≠ "") :
    ∀ ts, pyStrip (pyStr v) ∈ keys.foldl
      (fun ts2 nk2 =>
        match mas.lookup nk2 with
        | some v2 => if pyTruthy v2 then addText ts2 (pyStrip (pyStr v2)) else ts2
        | none => ts2) ts := by
  induction keys with
  | nil => cases hnk
  | cons k rest ih =>
    intro ts
    simp only [List.foldl_cons]
    rcases List.mem_cons.mp hnk with hk | hk
    · subst hk
      apply foldl_mem_mono _ (fun ts2 k2 x h => subProbe_mono mas ts2 k2 x h) rest
      rw [hl]
      dsimp only
      rw [if_pos ht]
      exact addText_self ts _ hs
    · exact ih hk _

/-- C2 (amended): inside a mapping element of a container array the
sub-field loop has no early exit: every sub-field in the priority list
whose value is truthy and stringifies-and-strips to a non-empty text
contributes that text to the element's collected list (subject only to
exact-match deduplication), not just the first such sub-field. -/
theorem subfields_all_contribute (mas : List (String × Json)) (ts : List String)
    (nk : String) (v : Json) (hnk : nk ∈ subFieldKeys) (hl : mas.lookup nk = some v)
    (ht : pyTruthy v = true) (hs : pyStrip (pyStr v) ≠ "") :
    pyStrip (pyStr v) ∈ addElem ts (.obj mas) := by
  have h := mem_foldl_subProbe mas subFieldKeys nk v hnk hl ht hs ts
  simpa [addElem] using h

/-- Witness for C2's amended theorem: the `title` sub-field (second in
priority) of an element that also has a truthy `name` contributes. -/
theorem subfields_all_contribute_witness :
    "B" ∈ addElem [] (.obj [("name", .str "A"), ("title", .str "B")]) := by
  have h := subfields_all_contribute [("name", .str "A"), ("title", .str "B")] []
    "title" (.str "B") (by decide) (by rfl) (by decide) (by decide)
  simpa using h

/-- Counterexample to C2 as stated: with element
`\x7b"name": "A", "title": "B"\x7d` the later sub-field `title` also
contributes, so the item's meals are `["A", "B"]`, not `["A"]`. -/
theorem subfield_first_only_cex :
    extract_entries abPayload = [(toOrdinal 2024 6 10, ["A", "B"])] ∧
    extract_entries abPayload ≠ [(toOrdinal 2024 6 10, ["A"])] := by
  constructor
  · decide
  · decide

/-- Membership in the array branch of `walk`: some element collects it. -/
theorem mem_walkElems (xs : List Json) (a : List Json) :
    a ∈ walkElems xs ↔ ∃ x ∈ xs, a ∈ walk x := by
  induction xs with
  | nil => simp [walkElems]
  | cons x rest ih =>
    unfold walkElems
    simp [List.mem_append, ih]

/-- Membership in the dict branch of `walk`: either a matched
list-valued key equal to it, or a non-matched value that collects it. -/
theorem mem_walkFields (kvs : List (String × Json)) (a : List Json) :
    a ∈ walkFields kvs ↔ ∃ k v, (k, v) ∈ kvs ∧
      ((∃ xs, v = Json.arr xs ∧ keyMatches k = true ∧ a = xs) ∨
       ((∀ xs, v = Json.arr xs → keyMatches k = false) ∧ a ∈ walk v)) := by
  induction kvs with
  | nil => simp [walkFields]
  | cons kv rest ih =>
    obtain ⟨k, v⟩ := kv
    unfold walkFields
    rw [List.mem_append, ih]
    constructor
    · rintro (hhead | ⟨k2, v2, hmem, hcase⟩)
      · refine ⟨k, v, List.mem_cons_self _ _, ?_⟩
        cases v with
        | arr xs =>
          by_cases hm : keyMatches k
          · simp only [if_pos hm] at hhead
            simp at hhead
            exact Or.inl ⟨xs, rfl, hm, hhead⟩
          · simp only [if_neg hm] at hhead
            refine Or.inr ⟨?_, ?_⟩
            · intro xs2 hxs2
              cases hxs2
              exact Bool.eq_false_iff.mpr hm
            · rw [show walk (Json.arr xs) = walkElems xs from rfl]
              exact hhead
        | obj kvs2 =>
          exact Or.inr ⟨(fun xs2 hxs2 => by cases hxs2), hhead⟩
        | str s => exact Or.inr ⟨(fun xs2 hxs2 => by cases hxs2), hhead⟩
        | num n => exact Or.inr ⟨(fun xs2 hxs2 => by cases hxs2), hhead⟩
        | bool b => exact Or.inr ⟨(fun xs2 hxs2 => by cases hxs2), hhead⟩
        | null => exact Or.inr ⟨(fun xs2 hxs2 => by cases hxs2), hhead⟩
      · exact ⟨k2, v2, List.mem_cons_of_mem _ hmem, hcase⟩
    · rintro ⟨k2, v2, hmem, hcase⟩
      rcases List.mem_cons.mp hmem with heq | htail
      · obtain ⟨heq1, heq2⟩ := Prod.mk.injEq .. ▸ heq
        · left
          subst heq1
          subst heq2
          rcases hcase with ⟨xs, hv, hm, ha⟩ | ⟨hnm, hwalk⟩
          · subst hv
            simp [if_pos hm, ha]
          · cases v2 with
            | arr xs =>
              have : keyMatches k2 = false := hnm xs rfl
              simp only [this]
              simp only [Bool.false_eq_true, if_false]
              exact hwalk
            | obj kvs2 => exact hwalk
            | str s => exact hwalk
            | num n => exact hwalk
            | bool b => exact hwalk
            | null => exact hwalk
      · exact Or.inr ⟨k2, v2, htail, hcase⟩

/-- Size-bounded form of the `walk` characterization. -/
theorem walk_collects_aux (n : Nat) :
    ∀ j : Json, sizeOf j ≤ n → ∀ a, (a ∈ walk j ↔ Collects j a) := by
  induction n using Nat.strong_induction_on with
  | _ n ih =>
    intro j hj a
    cases j with
    | obj kvs =>
      rw [show walk (Json.obj kvs) = walkFields kvs from rfl, mem_walkFields]
      constructor
      · rintro ⟨k, v, hmem, hcase⟩
        rcases hcase with ⟨xs, hv, hm, ha⟩ | ⟨hnm, hwalk⟩
        · subst hv
          subst ha
          exact Collects.matched kvs k a hmem hm
        · have h1 : sizeOf (k, v) < sizeOf kvs := List.sizeOf_lt_of_mem hmem
          have h2 : sizeOf (Json.obj kvs) = 1 + sizeOf kvs := by simp
          have h3 : sizeOf (k, v) = 1 + sizeOf k + sizeOf v := by simp
          have hcol : Collects v a :=
            (ih (sizeOf v) (by omega) v le_rfl a).mp hwalk
          exact Collects.objRec kvs k v a hmem hnm hcol
      · intro hc
        cases hc with
        | matched kvs2 k2 xs2 hmem hm =>
          exact ⟨k2, .arr a, hmem, Or.inl ⟨a, rfl, hm, rfl⟩⟩
        | objRec kvs2 k2 v2 a2 hmem hnm hcol =>
          have h1 : sizeOf (k2, v2) < sizeOf kvs := List.sizeOf_lt_of_mem hmem
          have h2 : sizeOf (Json.obj kvs) = 1 + sizeOf kvs := by simp
          have h3 : sizeOf (k2, v2) = 1 + sizeOf k2 + sizeOf v2 := by simp
          exact ⟨k2, v2, hmem, Or.inr ⟨hnm, (ih (sizeOf v2) (by omega) v2 le_rfl a).mpr hcol⟩⟩
    | arr xs =>
      rw [show walk (Json.arr xs) = walkElems xs from rfl, mem_walkElems]
      constructor
      · rintro ⟨x, hx, hwalk⟩
        have h1 : sizeOf x < sizeOf xs := List.sizeOf_lt_of_mem hx
        have h2 : sizeOf (Json.arr xs) = 1 + sizeOf xs := by simp
        exact Collects.arrRec xs x a hx ((ih (sizeOf x) (by omega) x le_rfl a).mp hwalk)
      · intro hc
        cases hc with
        | arrRec xs2 x2 a2 hx hcol =>
          have h1 : sizeOf x2 < sizeOf xs := List.sizeOf_lt_of_mem hx
          have h2 : sizeOf (Json.arr xs) = 1 + sizeOf xs := by simp
          exact ⟨x2, hx, (ih (sizeOf x2) (by omega) x2 le_rfl a).mpr hcol⟩
    | str s =>
      rw [show walk (Json.str s) = [] from rfl]
      constructor
      · intro h
        cases h
      · intro hc
        cases hc
    | num m =>
      rw [show walk (Json.num m) = [] from rfl]
      constructor
      · intro h
        cases h
      · intro hc
        cases hc
    | bool b =>
      rw [show walk (Json.bool b) = [] from rfl]
      constructor
      · intro h
        cases h
      · intro hc
        cases hc
    | null =>
      rw [show walk Json.null = [] from rfl]
      constructor
      · intro h
        cases h
      · intro hc
        cases hc

/-- C3: `walk` returns exactly the arrays reachable under a mapping key
whose name matches meal/menu/dish/course case-insensitively, never
recursing into a matched array, and recursing into all elements of
non-matching arrays and values of non-matching keys. -/
theorem walk_exactly_matched_arrays (j : Json) (a : List Json) :
    a ∈ walk j ↔ Collects j a :=
  walk_collects_aux (sizeOf j) j le_rfl a

/-- `stripChars` is right-trim after left-trim. -/
theorem stripChars_eq_rdrop (cs : List Char) :
    stripChars cs = List.rdropWhile Char.isWhitespace (cs.dropWhile Char.isWhitespace) := by
  simp [stripChars, List.rdropWhile]

/-- Stripping is idempotent. -/
theorem stripChars_idem (cs : List Char) : stripChars (stripChars cs) = stripChars cs := by
  rw [stripChars_eq_rdrop, stripChars_eq_rdrop]
  have hDfix : (cs.dropWhile Char.isWhitespace).dropWhile Char.isWhitespace =
      cs.dropWhile Char.isWhitespace := List.dropWhile_idempotent _ _
  have hpre : List.rdropWhile Char.isWhitespace (cs.dropWhile Char.isWhitespace) <+:
      cs.dropWhile Char.isWhitespace := List.rdropWhile_prefix _ _
  have hRfix : (List.rdropWhile Char.isWhitespace (cs.dropWhile Char.isWhitespace)).dropWhile
      Char.isWhitespace = List.rdropWhile Char.isWhitespace (cs.dropWhile Char.isWhitespace) := by
    obtain ⟨t, ht⟩ := hpre
    cases hRc : List.rdropWhile Char.isWhitespace (cs.dropWhile Char.isWhitespace) with
    | nil => simp
    | cons a R2 =>
      rw [hRc] at ht
      have hw : Char.isWhitespace a = false := by
        by_contra hcon
        rw [Bool.not_eq_false] at hcon
        rw [← ht, List.cons_append, List.dropWhile_cons, hcon] at hDfix
        simp only [if_true] at hDfix
        have hlen := congrArg List.length hDfix
        have hle := (List.dropWhile_suffix (l := R2 ++ t) Char.isWhitespace).length_le
        rw [List.length_cons] at hlen
        omega
      rw [List.dropWhile_cons, hw]
      simp
  rw [hRfix, List.rdropWhile_idempotent]

/-- `pyStrip` is idempotent. -/
theorem pyStrip_idem (s : String) : pyStrip (pyStrip s) = pyStrip s := by
  unfold pyStrip
  rw [show (String.mk (stripChars s.toList)).toList = stripChars s.toList from rfl,
    stripChars_idem]

/-- The cleaning loop of `build_ics`: starting from a consistent
seen/clean pair it keeps the cleaned list pairwise distinct up to
case, stripped and non-empty, and only ever appends a sublist of the
stripped input. -/
theorem cleanGo_props (meals : List String) : ∀ clean : List String,
    clean.Pairwise (fun a b => lowerStr a ≠ lowerStr b) →
    (∀ t ∈ clean, pyStrip t = t ∧ t ≠ "") →
    ((cleanGo meals (clean.map lowerStr) clean).Pairwise
        (fun a b => lowerStr a ≠ lowerStr b) ∧
      (∀ t ∈ cleanGo meals (clean.map lowerStr) clean, pyStrip t = t ∧ t ≠ "") ∧
      ∃ suf, cleanGo meals (clean.map lowerStr) clean = clean ++ suf ∧
        suf.Sublist (meals.map pyStrip)) := by
  induction meals with
  | nil =>
    intro clean hP hT
    exact ⟨hP, hT, [], by simp [cleanGo], List.nil_sublist _⟩
  | cons m rest ih =>
    intro clean hP hT
    unfold cleanGo
    by_cases h1 : pyStrip m = ""
    · rw [if_pos h1]
      obtain ⟨ha, hb, suf, hs, hsub⟩ := ih clean hP hT
      exact ⟨ha, hb, suf, hs, by simpa using hsub.cons (pyStrip m)⟩
    · rw [if_neg h1]
      by_cases h2 : lowerStr (pyStrip m) ∈ clean.map lowerStr
      · rw [if_pos h2]
        obtain ⟨ha, hb, suf, hs, hsub⟩ := ih clean hP hT
        exact ⟨ha, hb, suf, hs, by simpa using hsub.cons (pyStrip m)⟩
      · rw [if_neg h2]
        have hmap : (clean ++ [pyStrip m]).map lowerStr =
            clean.map lowerStr ++ [lowerStr (pyStrip m)] := by simp
        rw [← hmap]
        have hP2 : (clean ++ [pyStrip m]).Pairwise (fun a b => lowerStr a ≠ lowerStr b) := by
          rw [List.pairwise_append]
          refine ⟨hP, List.pairwise_singleton _ _, ?_⟩
          intro a ha b hb
          rw [List.mem_singleton] at hb
          subst hb
          intro hcon
          exact h2 (hcon ▸ List.mem_map_of_mem lowerStr ha)
        have hT2 : ∀ t ∈ clean ++ [pyStrip m], pyStrip t = t ∧ t ≠ "" := by
          intro t ht
          rcases List.mem_append.mp ht with h | h
          · exact hT t h
          · rw [List.mem_singleton] at h
            subst h
            exact ⟨pyStrip_idem m, h1⟩
        obtain ⟨ha, hb, suf, hs, hsub⟩ := ih (clean ++ [pyStrip m]) hP2 hT2
        refine ⟨ha, hb, pyStrip m :: suf, ?_, ?_⟩
        · rw [hs]
          simp
        · simpa using hsub.cons₂ (pyStrip m)

/-- The cleaned meal list is pairwise distinct up to case, stripped,
non-empty, and a sublist of the stripped input (first-seen order). -/
theorem cleanMeals_props (meals : List String) :
    (cleanMeals meals).Pairwise (fun a b => lowerStr a ≠ lowerStr b) ∧
    (∀ t ∈ cleanMeals meals, pyStrip t = t ∧ t ≠ "") ∧
    (cleanMeals meals).Sublist (meals.map pyStrip) := by
  have h := cleanGo_props meals [] (List.Pairwise.nil) (by simp)
  rw [show List.map lowerStr [] = [] from rfl] at h
  obtain ⟨ha, hb, suf, hs, hsub⟩ := h
  unfold cleanMeals
  rw [show cleanGo meals [] [] = cleanGo meals [] [] from rfl]
  refine ⟨ha, hb, ?_⟩
  rw [show (cleanGo meals [] [] : List String) = [] ++ suf from hs]
  simpa using hsub

/-- Membership in the event part of the output: a line is in it exactly
when some listed day with a non-empty cleaned list puts it in its
block. -/
theorem mem_events_part (now : String) (hashF : String → Nat)
    (daily : List (Int × List String)) (l : IcsLine) :
    (l ∈ (daily.map (fun p =>
        if (cleanMeals p.2).isEmpty then []
        else eventBlock now hashF p.1 (cleanMeals p.2))).flatten ↔
      ∃ p ∈ daily, ¬(cleanMeals p.2).isEmpty = true ∧
        l ∈ eventBlock now hashF p.1 (cleanMeals p.2)) := by
  rw [List.mem_flatten]
  constructor
  · rintro ⟨s, hs, hl⟩
    rw [List.mem_map] at hs
    obtain ⟨p, hp, hps⟩ := hs
    by_cases hc : (cleanMeals p.2).isEmpty
    · rw [← hps, if_pos hc] at hl
      cases hl
    · rw [← hps, if_neg hc] at hl
      exact ⟨p, hp, hc, hl⟩
  · rintro ⟨p, hp, hc, hl⟩
    refine ⟨eventBlock now hashF p.1 (cleanMeals p.2), ?_, hl⟩
    rw [List.mem_map]
    exact ⟨p, hp, by rw [if_neg hc]⟩

/-- Event counts and `DTSTART`/`DTEND` traces of the event part when
every day survives cleaning. -/
theorem events_part_counts (now : String) (hashF : String → Nat) :
    ∀ daily : List (Int × List String), (∀ p ∈ daily, cleanMeals p.2 ≠ []) →
      ((daily.map (fun p =>
          if (cleanMeals p.2).isEmpty then []
          else eventBlock now hashF p.1 (cleanMeals p.2))).flatten.countP isBeginEvent =
        daily.length ∧
      (daily.map (fun p =>
          if (cleanMeals p.2).isEmpty then []
          else eventBlock now hashF p.1 (cleanMeals p.2))).flatten.countP isEndEvent =
        daily.length ∧
      dtstartsOf (daily.map (fun p =>
          if (cleanMeals p.2).isEmpty then []
          else eventBlock now hashF p.1 (cleanMeals p.2))).flatten =
        daily.map Prod.fst ∧
      dtendsOf (daily.map (fun p =>
          if (cleanMeals p.2).isEmpty then []
          else eventBlock now hashF p.1 (cleanMeals p.2))).flatten =
        (daily.map Prod.fst).map (fun d => d + 1)) := by
  intro daily
  induction daily with
  | nil => intro _; refine ⟨rfl, rfl, rfl, rfl⟩
  | cons p rest ih =>
    intro h
    have hp : cleanMeals p.2 ≠ [] := h p (List.mem_cons_self _ _)
    have hrest := ih (fun q hq => h q (List.mem_cons_of_mem _ hq))
    have hc : (cleanMeals p.2).isEmpty = false := by
      rw [List.isEmpty_eq_false_iff_exists_mem]
      cases hcm : cleanMeals p.2 with
      | nil => exact absurd hcm hp
      | cons a t => exact ⟨a, by simp⟩
    simp only [List.map_cons, List.flatten_cons, hc, Bool.false_eq_true, if_false,
      List.countP_append, List.length_cons, dtstartsOf, dtendsOf, List.filterMap_append]
    rw [show (eventBlock now hashF p.1 (cleanMeals p.2)).countP isBeginEvent = 1 from rfl,
      show (eventBlock now hashF p.1 (cleanMeals p.2)).countP isEndEvent = 1 from rfl,
      show (eventBlock now hashF p.1 (cleanMeals p.2)).filterMap
        (fun l => match l with | .dtstartL d => some d | _ => none) = [p.1] from rfl,
      show (eventBlock now hashF p.1 (cleanMeals p.2)).filterMap
        (fun l => match l with | .dtendL d => some d | _ => none) = [p.1 + 1] from rfl]
    unfold dtstartsOf at hrest
    unfold dtendsOf at hrest
    rw [hrest.1, hrest.2.1, hrest.2.2.1, hrest.2.2.2]
    refine ⟨by omega, by omega, rfl, rfl⟩

/-- Event count of the event part without any hypothesis: one block per
day surviving cleaning. -/
theorem events_part_count_all (now : String) (hashF : String → Nat) :
    ∀ daily : List (Int × List String),
      (daily.map (fun p =>
          if (cleanMeals p.2).isEmpty then []
          else eventBlock now hashF p.1 (cleanMeals p.2))).flatten.countP isBeginEvent =
        daily.countP (fun p => !(cleanMeals p.2).isEmpty) := by
  intro daily
  induction daily with
  | nil => rfl
  | cons p rest ih =>
    simp only [List.map_cons, List.flatten_cons, List.countP_append, List.countP_cons, ih]
    by_cases hc : (cleanMeals p.2).isEmpty
    · rw [if_pos hc, hc]
      simp
    · have hc2 : (cleanMeals p.2).isEmpty = false := Bool.eq_false_iff.mpr hc
      rw [if_neg hc, hc2]
      rw [show (eventBlock now hashF p.1 (cleanMeals p.2)).countP isBeginEvent = 1 from rfl]
      simp
      omega

/-- C7: with every day's cleaned meal list non-empty, the output has
exactly one `BEGIN:VEVENT`/`END:VEVENT` pair per day, every `DTEND`
date is the corresponding `DTSTART` date plus one calendar day, the
document is bracketed by the calendar header and footer, and an empty
DailyMenu yields exactly the header and footer with zero events. -/
theorem build_ics_event_blocks (name now : String) (hashF : String → Nat)
    (daily : List (Int × List String)) (h : ∀ p ∈ daily, cleanMeals p.2 ≠ []) :
    (build_ics_lines name now hashF daily).countP isBeginEvent = daily.length ∧
    (build_ics_lines name now hashF daily).countP isEndEvent = daily.length ∧
    dtendsOf (build_ics_lines name now hashF daily) =
      (dtstartsOf (build_ics_lines name now hashF daily)).map (fun d => d + 1) ∧
    (build_ics_lines name now hashF daily).head? = some .beginCal ∧
    (build_ics_lines name now hashF daily).getLast? = some .endCal ∧
    build_ics_lines name now hashF [] = hdrLines name ++ [.endCal] := by
  obtain ⟨h1, h2, h3, h4⟩ := events_part_counts now hashF daily h
  unfold build_ics_lines
  refine ⟨?_, ?_, ?_, ?_, ?_, rfl⟩
  · simp only [List.countP_append, h1]
    rw [show (hdrLines name).countP isBeginEvent = 0 from rfl,
      show ([IcsLine.endCal] : List IcsLine).countP isBeginEvent = 0 from rfl]
    omega
  · simp only [List.countP_append, h2]
    rw [show (hdrLines name).countP isEndEvent = 0 from rfl,
      show ([IcsLine.endCal] : List IcsLine).countP isEndEvent = 0 from rfl]
    omega
  · unfold dtstartsOf dtendsOf
    simp only [List.filterMap_append]
    rw [show (hdrLines name).filterMap
        (fun l => match l with | .dtstartL d => some d | _ => none) = [] from rfl,
      show (hdrLines name).filterMap
        (fun l => match l with | .dtendL d => some d | _ => none) = [] from rfl,
      show ([IcsLine.endCal] : List IcsLine).filterMap
        (fun l => match l with | .dtstartL d => some d | _ => none) = [] from rfl,
      show ([IcsLine.endCal] : List IcsLine).filterMap
        (fun l => match l with | .dtendL d => some d | _ => none) = [] from rfl]
    unfold dtstartsOf at h3
    unfold dtendsOf at h4
    rw [h3, h4]
    simp
  · rfl
  · exact List.getLast?_concat _

/-- C5: the rendered output has one event exactly per day whose cleaned
meal list is non-empty (empty days are skipped), and every DESCRIPTION
body is the join of a cleaned list that is pairwise distinct up to
case, stripped, free of empties, and a first-seen-order sublist of the
stripped input meals — so no meal string appears twice up to case. -/
theorem build_ics_desc_ci_unique (name now : String) (hashF : String → Nat)
    (daily : List (Int × List String)) :
    ((build_ics_lines name now hashF daily).countP isBeginEvent =
      daily.countP (fun p => !(cleanMeals p.2).isEmpty)) ∧
    ∀ s, IcsLine.descriptionL s ∈ build_ics_lines name now hashF daily →
      ∃ p ∈ daily, cleanMeals p.2 ≠ [] ∧ s = descText (cleanMeals p.2) ∧
        (cleanMeals p.2).Pairwise (fun a b => lowerStr a ≠ lowerStr b) ∧
        (∀ t ∈ cleanMeals p.2, pyStrip t = t ∧ t ≠ "") ∧
        (cleanMeals p.2).Sublist (p.2.map pyStrip) := by
  constructor
  · unfold build_ics_lines
    simp only [List.countP_append, events_part_count_all now hashF daily]
    rw [show (hdrLines name).countP isBeginEvent = 0 from rfl,
      show ([IcsLine.endCal] : List IcsLine).countP isBeginEvent = 0 from rfl]
    omega
  · intro s hs
    unfold build_ics_lines at hs
    rw [List.mem_append, List.mem_append] at hs
    rcases hs with (hhdr | hmid) | hftr
    · exact absurd hhdr (by simp [hdrLines])
    · rw [mem_events_part] at hmid
      obtain ⟨p, hp, hc, hl⟩ := hmid
      have hs2 : s = descText (cleanMeals p.2) := by
        simp [eventBlock] at hl
        exact hl
      have hcm : cleanMeals p.2 ≠ [] := by
        intro hcon
        rw [hcon] at hc
        exact hc rfl
      obtain ⟨ha, hb, hsub⟩ := cleanMeals_props p.2
      exact ⟨p, hp, hcm, hs2, ha, hb, hsub⟩
    · exact absurd hftr (by simp)

/-- Witness for C7 on a two-day DailyMenu. -/
theorem build_ics_event_blocks_witness :
    (build_ics_lines "N" "T" (fun _ => 0) [(739047, ["a"]), (739048, ["b"])]).countP
        isBeginEvent = 2 ∧
    dtendsOf (build_ics_lines "N" "T" (fun _ => 0) [(739047, ["a"]), (739048, ["b"])]) =
      (dtstartsOf (build_ics_lines "N" "T" (fun _ => 0)
        [(739047, ["a"]), (739048, ["b"])])).map (fun d => d + 1) := by
  have h := build_ics_event_blocks "N" "T" (fun _ => 0) [(739047, ["a"]), (739048, ["b"])]
    (by decide)
  exact ⟨h.1, h.2.2.1⟩

/-- Witness for C5 at a description whose meal list repeats a case
variant. -/
theorem build_ics_desc_ci_unique_witness :
    ∃ p ∈ [((739047 : Int), ["Fish soup", "fish soup"])], cleanMeals p.2 ≠ [] ∧
      "Fish soup" = descText (cleanMeals p.2) ∧
      (cleanMeals p.2).Pairwise (fun a b => lowerStr a ≠ lowerStr b) ∧
      (∀ t ∈ cleanMeals p.2, pyStrip t = t ∧ t ≠ "") ∧
      (cleanMeals p.2).Sublist (p.2.map pyStrip) :=
  (build_ics_desc_ci_unique "N" "T" (fun _ => 0)
    [(739047, ["Fish soup", "fish soup"])]).2 "Fish soup" (by decide)


/-- Lookup at a just-inserted key. -/
theorem lookup_cons_self {β : Type} (k : String) (b : β) (l : List (String × β)) :
    List.lookup k ((k, b) :: l) = some b := by
  simp [List.lookup]

/-- Lookup skips a non-matching head. -/
theorem lookup_cons_ne {β : Type} (k k2 : String) (b : β) (l : List (String × β))
    (h : k2 ≠ k) : List.lookup k2 ((k, b) :: l) = List.lookup k2 l := by
  have hb : (k2 == k) = false := beq_eq_false_iff_ne.mpr h
  simp [List.lookup, hb]

/-- Lookup after a dict assignment. -/
theorem lookup_dictSet (k k2 : String) (vs : List String)
    (g : List (String × List String)) :
    List.lookup k2 (dictSet k vs g) = if k2 = k then some vs else List.lookup k2 g := by
  induction g with
  | nil =>
    unfold dictSet
    by_cases h : k2 = k
    · subst h
      rw [if_pos rfl, lookup_cons_self]
    · rw [if_neg h, lookup_cons_ne _ _ _ _ h]
  | cons p rest ih =>
    obtain ⟨k3, vs3⟩ := p
    unfold dictSet
    by_cases h3 : k3 = k
    · rw [if_pos h3]
      subst h3
      by_cases h2 : k2 = k3
      · subst h2
        rw [if_pos rfl, lookup_cons_self]
      · rw [if_neg h2, lookup_cons_ne _ _ _ _ h2, lookup_cons_ne _ _ _ _ h2]
    · rw [if_neg h3]
      by_cases h2 : k2 = k3
      · subst h2
        have h4 : k2 ≠ k := h3
        rw [if_neg h4, lookup_cons_self, lookup_cons_self]
      · rw [lookup_cons_ne _ _ _ _ h2, ih, lookup_cons_ne _ _ _ _ h2]

/-- Lookup after the grouping step of `parse_qs`. -/
theorem lookup_groupInsert (k k2 v : String) (g : List (String × List String)) :
    List.lookup k2 (groupInsert k v g) =
      if k2 = k then
        (match List.lookup k g with
         | some vs => some (vs ++ [v])
         | none => some [v])
      else List.lookup k2 g := by
  induction g with
  | nil =>
    unfold groupInsert
    by_cases h : k2 = k
    · subst h
      rw [if_pos rfl, lookup_cons_self]
      rfl
    · rw [if_neg h, lookup_cons_ne _ _ _ _ h]
  | cons p rest ih =>
    obtain ⟨k3, vs3⟩ := p
    unfold groupInsert
    by_cases h3 : k3 = k
    · rw [if_pos h3]
      subst h3
      by_cases h2 : k2 = k3
      · subst h2
        rw [if_pos rfl, lookup_cons_self, lookup_cons_self]
      · rw [if_neg h2, lookup_cons_ne _ _ _ _ h2, lookup_cons_ne _ _ _ _ h2]
    · rw [if_neg h3]
      by_cases h2 : k2 = k3
      · subst h2
        have h4 : k2 ≠ k := h3
        rw [if_neg h4, lookup_cons_self, lookup_cons_self]
      · rw [lookup_cons_ne _ _ _ _ h2, ih, lookup_cons_ne _ _ _ _ (fun hc => h3 hc.symm),
          lookup_cons_ne _ _ _ _ h2]

/-- Lookup through the fold of `parse_qs`, relative to an accumulator. -/
theorem lookup_parse_qs_fold (pairs : List (String × String)) :
    ∀ (acc : List (String × List String)) (k : String),
      List.lookup k (pairs.foldl
          (fun acc kv => if kv.2 = "" then acc else groupInsert kv.1 kv.2 acc) acc) =
        (match List.lookup k acc with
         | some vs => some (vs ++ valsOf k pairs)
         | none => if valsOf k pairs = [] then none else some (valsOf k pairs)) := by
  induction pairs with
  | nil =>
    intro acc k
    simp only [List.foldl_nil]
    cases List.lookup k acc with
    | none => simp [valsOf]
    | some vs => simp [valsOf]
  | cons p rest ih =>
    intro acc k
    obtain ⟨pk, pv⟩ := p
    simp only [List.foldl_cons]
    by_cases hb : pv = ""
    · rw [if_pos hb, ih]
      have hv : valsOf k ((pk, pv) :: rest) = valsOf k rest := by
        simp [valsOf, List.filter_cons, hb]
      rw [hv]
    · rw [if_neg hb, ih]
      have hbne : (pv == "") = false := beq_eq_false_iff_ne.mpr hb
      by_cases hk : pk = k
      · subst hk
        have hv : valsOf pk ((pk, pv) :: rest) = pv :: valsOf pk rest := by
          simp [valsOf, List.filter_cons, hbne]
        rw [hv, lookup_groupInsert, if_pos rfl]
        cases List.lookup pk acc with
        | none => simp
        | some vs => simp
      · have hkb : (pk == k) = false := beq_eq_false_iff_ne.mpr hk
        have hv : valsOf k ((pk, pv) :: rest) = valsOf k rest := by
          simp [valsOf, List.filter_cons, hkb]
        rw [hv, lookup_groupInsert, if_neg (fun hc => hk hc.symm)]

/-- Lookup through the value-head projection of `urlencode`. -/
theorem lookup_mapHeads (k : String) (g : List (String × List String)) :
    List.lookup k (g.map (fun p => (p.1, p.2.headD ""))) =
      (List.lookup k g).map (fun vs => vs.headD "") := by
  induction g with
  | nil => rfl
  | cons p rest ih =>
    obtain ⟨k3, vs3⟩ := p
    simp only [List.map_cons]
    by_cases h : k = k3
    · subst h
      rw [lookup_cons_self, lookup_cons_self]
      rfl
    · rw [lookup_cons_ne _ _ _ _ h, lookup_cons_ne _ _ _ _ h, ih]

/-- The first non-blank value of `k` heads the `parse_qs` group of `k`. -/
theorem firstNonBlank_head_valsOf (k : String) (pairs : List (String × String)) :
    firstNonBlankValue k pairs = (valsOf k pairs).head? := by
  induction pairs with
  | nil => rfl
  | cons p rest ih =>
    obtain ⟨pk, pv⟩ := p
    by_cases hb : pv = ""
    · have hbe : (pv == "") = true := beq_iff_eq.mpr hb
      have h1 : firstNonBlankValue k ((pk, pv) :: rest) = firstNonBlankValue k rest := by
        simp [firstNonBlankValue, List.filter_cons, hbe]
      have h2 : valsOf k ((pk, pv) :: rest) = valsOf k rest := by
        simp [valsOf, List.filter_cons, hbe]
      rw [h1, h2, ih]
    · have hbne : (pv == "") = false := beq_eq_false_iff_ne.mpr hb
      by_cases hk : pk = k
      · subst hk
        have h1 : firstNonBlankValue pk ((pk, pv) :: rest) =
            List.lookup pk ((pk, pv) :: (rest.filter (fun p => !(p.2 == "")))) := by
          simp [firstNonBlankValue, List.filter_cons, hbne]
        have h2 : valsOf pk ((pk, pv) :: rest) = pv :: valsOf pk rest := by
          simp [valsOf, List.filter_cons, hbne]
        rw [h1, h2, lookup_cons_self]
        rfl
      · have hkb : (pk == k) = false := beq_eq_false_iff_ne.mpr hk
        have h1 : firstNonBlankValue k ((pk, pv) :: rest) =
            List.lookup k ((pk, pv) :: (rest.filter (fun p => !(p.2 == "")))) := by
          simp [firstNonBlankValue, List.filter_cons, hbne]
        have h2 : valsOf k ((pk, pv) :: rest) = valsOf k rest := by
          simp [valsOf, List.filter_cons, hkb]
        rw [h1, h2, lookup_cons_ne _ _ _ _ (fun hc => hk hc.symm)]
        exact ih

/-- Counterexample to C8 as stated: on a URL whose query repeats the
parameter `a` and carries a blank `b`, the pair `a=2` is present in the
input query but absent from the result (only the first value of each
parameter survives the `\x7bk: v[0]\x7d` re-encoding), and the blank
`b` parameter disappears entirely, so other query parameters are not
all preserved unchanged. -/
theorem add_week_preserves_params_cex :
    ("a", "2") ∈ repeatedParamUrl.query ∧
    ("a", "2") ∉ (add_week_query_to_week_url repeatedParamUrl
      (toOrdinal 2024 6 10) (toOrdinal 2024 6 16)).query ∧
    ("b", "") ∈ repeatedParamUrl.query ∧
    ("b", "") ∉ (add_week_query_to_week_url repeatedParamUrl
      (toOrdinal 2024 6 10) (toOrdinal 2024 6 16)).query ∧
    (add_week_query_to_week_url repeatedParamUrl
        (toOrdinal 2024 6 10) (toOrdinal 2024 6 16)).query =
      [("a", "1"), ("startDate", "2024-06-10"), ("endDate", "2024-06-16")] := by
  refine ⟨by decide, by decide, by decide, by decide, by decide⟩

/-- C8 (amended): the result keeps scheme, network location, path,
params and fragment unchanged; `startDate` and `endDate` carry the ISO
forms of the requested bounds, replacing any pre-existing values; and
every other parameter name maps to the first non-blank value it had in
the input query (so repeated values beyond the first, and parameters
with only blank values, are dropped by the `parse_qs`/`v[0]`
round-trip). -/
theorem add_week_query_amended (u : UrlParts) (s e : Int) :
    (add_week_query_to_week_url u s e).scheme = u.scheme ∧
    (add_week_query_to_week_url u s e).netloc = u.netloc ∧
    (add_week_query_to_week_url u s e).path = u.path ∧
    (add_week_query_to_week_url u s e).params = u.params ∧
    (add_week_query_to_week_url u s e).fragment = u.fragment ∧
    List.lookup "startDate" (add_week_query_to_week_url u s e).query =
      some (isoformat s) ∧
    List.lookup "endDate" (add_week_query_to_week_url u s e).query =
      some (isoformat e) ∧
    ∀ k, k ≠ "startDate" → k ≠ "endDate" →
      List.lookup k (add_week_query_to_week_url u s e).query =
        firstNonBlankValue k u.query := by
  refine ⟨rfl, rfl, rfl, rfl, rfl, ?_, ?_, ?_⟩
  · show List.lookup "startDate" ((dictSet "endDate" [isoformat e]
      (dictSet "startDate" [isoformat s] (parse_qs u.query))).map
        (fun p => (p.1, p.2.headD ""))) = some (isoformat s)
    rw [lookup_mapHeads, lookup_dictSet, if_neg (by decide), lookup_dictSet, if_pos rfl]
    rfl
  · show List.lookup "endDate" ((dictSet "endDate" [isoformat e]
      (dictSet "startDate" [isoformat s] (parse_qs u.query))).map
        (fun p => (p.1, p.2.headD ""))) = some (isoformat e)
    rw [lookup_mapHeads, lookup_dictSet, if_pos rfl]
    rfl
  · intro k h1 h2
    show List.lookup k ((dictSet "endDate" [isoformat e]
      (dictSet "startDate" [isoformat s] (parse_qs u.query))).map
        (fun p => (p.1, p.2.headD ""))) = firstNonBlankValue k u.query
    rw [lookup_mapHeads, lookup_dictSet, if_neg h2, lookup_dictSet, if_neg h1]
    unfold parse_qs
    rw [lookup_parse_qs_fold, firstNonBlank_head_valsOf]
    rw [show (List.lookup k ([] : List (String × List String))) = none from rfl]
    cases hv : valsOf k u.query with
    | nil => simp
    | cons a t => simp

/-- Witness for C8's amended theorem at the repeated-parameter URL and
the parameter `a`. -/
theorem add_week_query_amended_witness :
    List.lookup "a" (add_week_query_to_week_url repeatedParamUrl
        (toOrdinal 2024 6 10) (toOrdinal 2024 6 16)).query =
      firstNonBlankValue "a" repeatedParamUrl.query :=
  (add_week_query_amended repeatedParamUrl (toOrdinal 2024 6 10)
    (toOrdinal 2024 6 16)).2.2.2.2.2.2.2 "a" (by decide) (by decide)
